import Mathlib

/-!
Verification of the virtual-touch calculator core (src/calculator.py).

Modelling conventions:
- Python floats are modelled by exact rationals (ℚ).  Every IEEE double is a
  dyadic rational, so each value the program can hold is representable; the
  model computes arithmetic and decimal formatting exactly.  Boundary
  comparisons used in the claims (against 999999999, 1e-6, 30, 0.3 s) are
  exact in both models.
- Python strings are Lean `String`s; slicing, substring tests and length
  checks operate on the character list, as CPython does.
- `math.sqrt` is used by the source only inside comparisons
  (`sqrt d < 30`, `sqrt d1 < sqrt d2`); since square root is strictly
  monotone on non-negatives, the embedding compares squared distances
  (`d < 900`, `d1 < d2`), which is equivalent.
- `time.time()` timestamps are rationals (seconds); the cooldown is 3/10.
- Rendering-only state (hover/pressed flags, drawing) is not modelled.
-/

section

/- Batteries marks the rational operations irreducible, which stops `decide`
from evaluating them; restore reducibility locally so the executable model can
be run inside proofs. -/
attribute [local semireducible] Rat.add Rat.mul Rat.inv Rat.sub Rat.ofScientific

/-! ### String helpers -/

/-- Right strip of one character, as Python `str.rstrip(c)`. -/
def rstrip (c : Char) (s : String) : String :=
  ⟨(s.data.reverse.dropWhile (· == c)).reverse⟩

/-- Does `pat` occur at the start of `l`? -/
def chars_start_with : List Char → List Char → Bool
  | [], _ => true
  | _ :: _, [] => false
  | a :: as, b :: bs => a == b && chars_start_with as bs

/-- Does `pat` occur contiguously anywhere in `l`? -/
def chars_contain (pat : List Char) : List Char → Bool
  | [] => chars_start_with pat []
  | b :: bs => chars_start_with pat (b :: bs) || chars_contain pat bs

/-- Substring test, as Python `pat in s`. -/
def str_contains (s pat : String) : Bool :=
  chars_contain pat.data s.data

/-- Digit-string test, as Python `str.isdigit` on ASCII data. -/
def isdigit (s : String) : Bool :=
  !s.data.isEmpty && s.data.all Char.isDigit

/-! ### Decimal rendering of integers (Python `str` on `int`) -/

def digitChar (n : ℕ) : Char := Char.ofNat (48 + n)

def natStrAux : ℕ → ℕ → List Char
  | 0, _ => []
  | fuel + 1, n => if n = 0 then [] else natStrAux fuel (n / 10) ++ [digitChar (n % 10)]

/-- Decimal rendering of a natural number. -/
def natStr (n : ℕ) : String := if n = 0 then "0" else ⟨natStrAux n n⟩

/-- Decimal rendering of an integer. -/
def intStr (i : ℤ) : String := if i < 0 then "-" ++ natStr i.natAbs else natStr i.natAbs

/-- Number of decimal digits. -/
def numDigits (n : ℕ) : ℕ := (natStr n).data.length

/-! ### Rational helpers: powers of ten, floor, round-half-even -/

def pow10 (e : ℤ) : ℚ :=
  if 0 ≤ e then ((10 : ℚ) ^ e.toNat) else 1 / ((10 : ℚ) ^ (-e).toNat)

def qfloor (q : ℚ) : ℤ := q.num.fdiv (q.den : ℤ)

/-- Round to nearest integer, ties to even (the rounding used by C `printf`
style formatting of binary values, modelled on the exact rational). -/
def roundHalfEven (q : ℚ) : ℤ :=
  let f := qfloor q
  let r := q - (f : ℚ)
  if r < 1 / 2 then f
  else if 1 / 2 < r then f + 1
  else if f % 2 = 0 then f else f + 1

/-! ### Parsing (Python `float(s)` on decimal literals)

Models the decimal-literal fragment of `float`: optional sign, digits with an
optional point (at least one digit overall), optional `e`/`E` exponent with
optional sign.  Whitespace and `inf`/`nan` literals are not modelled; no such
string ever reaches `float` in the program. -/

def digitsVal (l : List Char) : ℕ :=
  l.foldl (fun a c => a * 10 + (c.toNat - 48)) 0

def pyFloat (s : String) : Option ℚ :=
  let cs := s.data
  let signed : Bool × List Char :=
    match cs with
    | '-' :: rest => (true, rest)
    | '+' :: rest => (false, rest)
    | _ => (false, cs)
  let neg := signed.1
  let (ip, cs1) := signed.2.span Char.isDigit
  let dotted : List Char × List Char :=
    match cs1 with
    | '.' :: rest => rest.span Char.isDigit
    | _ => ([], cs1)
  let fp := dotted.1
  let cs2 := if cs1.head? = some '.' then dotted.2 else cs1
  if ip.isEmpty && fp.isEmpty then none
  else
    let mant : ℚ := (digitsVal ip : ℚ) + (digitsVal fp : ℚ) / (10 : ℚ) ^ fp.length
    let mant := if neg then -mant else mant
    match cs2 with
    | [] => some mant
    | c :: rest =>
      if c = 'e' ∨ c = 'E' then
        let esigned : Bool × List Char :=
          match rest with
          | '-' :: r => (true, r)
          | '+' :: r => (false, r)
          | _ => (false, rest)
        let (ed, rest2) := esigned.2.span Char.isDigit
        if ed.isEmpty ∨ !rest2.isEmpty then none
        else
          let ex : ℤ := if esigned.1 then -(digitsVal ed : ℤ) else (digitsVal ed : ℤ)
          some (mant * pow10 ex)
      else none

/-- Absolute value, as Python `abs`. -/
def qabs (q : ℚ) : ℚ := if q < 0 then -q else q

/-! ### Result formatting (`calculate`'s format block and Python `str(float)`) -/

/-- Decimal exponent: the greatest `e` with `10^e ≤ qabs q`, for `q ≠ 0`. -/
def decExp (q : ℚ) : ℤ :=
  let c : ℤ := (numDigits q.num.natAbs : ℤ) - (numDigits q.den : ℤ)
  if pow10 c ≤ qabs q then c else c - 1

/-- Two-digit zero-padded exponent field of C-style scientific notation. -/
def pad2 (n : ℕ) : String := if n < 10 then "0" ++ natStr n else natStr n

/-- Scientific notation with two fractional digits, as Python `f"{r:.2e}"`. -/
def sci2 (r : ℚ) : String :=
  if r = 0 then "0.00e+00"
  else
    let e := decExp r
    let m := (roundHalfEven (qabs r * pow10 (2 - e))).toNat
    let me : ℕ × ℤ := if 1000 ≤ m then (100, e + 1) else (m, e)
    let ds := natStr me.1
    let mantissa : String := ⟨ds.data.take 1⟩ ++ "." ++ ⟨ds.data.drop 1⟩
    let expPart : String :=
      if 0 ≤ me.2 then "e+" ++ pad2 me.2.toNat else "e-" ++ pad2 (-me.2).toNat
    (if r < 0 then "-" else "") ++ mantissa ++ expPart

/-- The digit block of `f"{r:.8f}"`: the rounded value scaled by `10^8` in
decimal, zero-padded on the left to at least nine digits. -/
def fixed8_digits (r : ℚ) : List Char :=
  let ds := natStr ((roundHalfEven (qabs r * 100000000)).toNat)
  if ds.data.length < 9 then List.replicate (9 - ds.data.length) '0' ++ ds.data
  else ds.data

/-- Fixed-point rendering with eight fractional digits, as Python
`f"{r:.8f}"` (before the trailing strips applied by `calculate`). -/
def fixed8 (r : ℚ) : String :=
  (if r < 0 then "-" else "") ++
    ⟨(fixed8_digits r).take ((fixed8_digits r).length - 8)⟩ ++ "." ++
    ⟨(fixed8_digits r).drop ((fixed8_digits r).length - 8)⟩

/-- The result-formatting block of `calculate` (src/calculator.py lines
316-322): scientific notation when `abs(result) > 999999999` or
`abs(result) < 0.000001 and result != 0`; a bare integer string when the
result is integral; otherwise eight fractional digits with trailing zeros
and a trailing point stripped. -/
def formatResult (result : ℚ) : String :=
  if 999999999 < qabs result ∨ (qabs result < 1 / 1000000 ∧ result ≠ 0) then
    sci2 result
  else if result.den = 1 then
    intStr result.num
  else
    rstrip '.' (rstrip '0' (fixed8 result))

/-- `calculate` (src/calculator.py lines 298-325): parse both operands,
dispatch on the operator symbol, report division by exactly zero and any
parse failure or unknown operator as the error marker, and format. -/
def calculate (num1 operation num2 : String) : String :=
  match pyFloat num1, pyFloat num2 with
  | some n1, some n2 =>
    if operation = "+" then formatResult (n1 + n2)
    else if operation = "-" then formatResult (n1 - n2)
    else if operation = "×" then formatResult (n1 * n2)
    else if operation = "÷" then
      if n2 = 0 then "Error" else formatResult (n1 / n2)
    else "Error"
  | _, _ => "Error"

/-! ### Python `str(float)` (used by the `%` button)

`str` on a float prints the shortest decimal digits of the value with a
trailing `.0` for integral values, switching to e-notation when the decimal
exponent of the leading digit is below -4 or at least 16.  Every IEEE double
is a dyadic rational, so its decimal expansion terminates; the model extracts
that exact expansion. -/

/-- Multiplicity of `p` in `n` (fuelled; fuel `n` suffices). -/
def multOf (p : ℕ) : ℕ → ℕ → ℕ
  | 0, _ => 0
  | fuel + 1, n => if n % p = 0 ∧ n ≠ 0 ∧ 1 < p then multOf p fuel (n / p) + 1 else 0

/-- Strip factors of ten: `stripTens fuel n = (m, z)` with `n = m * 10^z`
when `n > 0` and fuel suffices. -/
def stripTens : ℕ → ℕ → ℕ × ℕ
  | 0, n => (n, 0)
  | fuel + 1, n =>
    if n % 10 = 0 ∧ n ≠ 0 then
      let mz := stripTens fuel (n / 10)
      (mz.1, mz.2 + 1)
    else (n, 0)

/-- Shortest terminating decimal form of a rational: `some (n, e)` with
`qabs q = n * 10^e` and `n` not a multiple of ten, or `none` when the decimal
expansion does not terminate (impossible for values of binary floats). -/
def decimalOfRat (q : ℚ) : Option (ℕ × ℤ) :=
  let d := q.den
  let t := max (multOf 2 d d) (multOf 5 d d)
  if (10 ^ t) % d = 0 then
    let n := q.num.natAbs * ((10 ^ t) / d)
    let mz := stripTens n n
    some (mz.1, (mz.2 : ℤ) - (t : ℤ))
  else none

/-- Python `str` on a float value, modelled on the exact rational. -/
def pyStr (q : ℚ) : String :=
  if q = 0 then "0.0"
  else
    match decimalOfRat q with
    | none => "nan"
    | some ne =>
      let n := ne.1
      let e := ne.2
      let k := numDigits n
      let bigE : ℤ := e + (k : ℤ) - 1
      let body : String :=
        if -4 ≤ bigE ∧ bigE < 16 then
          if 0 ≤ e then natStr n ++ ⟨List.replicate e.toNat '0'⟩ ++ ".0"
          else if 0 < (k : ℤ) + e then
            ⟨(natStr n).data.take ((k : ℤ) + e).toNat⟩ ++ "." ++
              ⟨(natStr n).data.drop ((k : ℤ) + e).toNat⟩
          else "0." ++ ⟨List.replicate (-((k : ℤ) + e)).toNat '0'⟩ ++ natStr n
        else
          let ds := natStr n
          (if k = 1 then ds else ⟨ds.data.take 1⟩ ++ "." ++ ⟨ds.data.drop 1⟩) ++
            "e" ++ (if 0 ≤ bigE then "+" ++ pad2 bigE.toNat else "-" ++ pad2 (-bigE).toNat)
      (if q < 0 then "-" else "") ++ body

/-! ### Calculator state machine (`process_button_press`) -/

/-- The calculator-relevant fields of `VirtualTouchCalculator`
(src/calculator.py lines 21-26). -/
structure CalcState where
  current_number : String
  previous_number : String
  operation : String
  display : String
  history : List String
  just_calculated : Bool
deriving DecidableEq

/-- Initial state (src/calculator.py lines 21-26). -/
def initState : CalcState :=
  { current_number := ""
    previous_number := ""
    operation := ""
    display := "0"
    history := []
    just_calculated := false }

/-- Substring test against the error marker (`"Error" in self.display`). -/
def contains_error (s : String) : Bool := str_contains s "Error"

/-- History append with FIFO eviction beyond ten entries
(src/calculator.py lines 254-256). -/
def push_history (h : List String) (entry : String) : List String :=
  let h1 := h ++ [entry]
  if 10 < h1.length then h1.drop 1 else h1

/-- The history record written by a `=` activation
(src/calculator.py line 253). -/
def history_entry (s : CalcState) : String :=
  s.previous_number ++ " " ++ s.operation ++ " " ++ s.current_number ++ " = " ++
    calculate s.previous_number s.operation s.current_number

/-- The state transition of `process_button_press` (src/calculator.py lines
191-296) after the cooldown gate, omitting the rendering-only pressed/hover
bookkeeping.  Python's truthiness tests on the string fields are non-emptiness
tests. -/
def apply_button (s : CalcState) (b : String) : CalcState :=
  if isdigit b then
    if s.just_calculated then
      { s with display := b, current_number := b, just_calculated := false }
    else
      let d :=
        if s.display = "0" ∨ contains_error s.display then b
        else if s.display.length < 12 then s.display ++ b
        else s.display
      { s with display := d, current_number := d }
  else if b = "." then
    if ¬str_contains s.display "." ∧ ¬s.just_calculated then
      let d := if s.display = "0" then "0." else s.display ++ "."
      { s with display := d, current_number := d }
    else s
  else if b = "+" ∨ b = "-" ∨ b = "×" ∨ b = "÷" then
    if s.current_number ≠ "" then
      if s.operation ≠ "" ∧ s.previous_number ≠ "" then
        let result := calculate s.previous_number s.operation s.current_number
        if ¬contains_error result then
          { s with previous_number := result, display := result, operation := b,
                   current_number := "", just_calculated := false }
        else
          { s with display := result }
      else
        { s with previous_number := s.current_number, operation := b,
                 current_number := "", just_calculated := false }
    else s
  else if b = "=" then
    if s.current_number ≠ "" ∧ s.operation ≠ "" ∧ s.previous_number ≠ "" then
      let result := calculate s.previous_number s.operation s.current_number
      { s with history := push_history s.history (history_entry s),
               display := result,
               current_number := if ¬contains_error result then result else "",
               previous_number := "", operation := "", just_calculated := true }
    else s
  else if b = "C" then
    { s with current_number := "", previous_number := "", operation := "",
             display := "0", just_calculated := false }
  else if b = "del" then
    if ¬s.just_calculated ∧ 1 < s.display.length then
      let d : String := ⟨s.display.data.dropLast⟩
      { s with display := d, current_number := d }
    else if s.display.length = 1 then
      { s with display := "0", current_number := "" }
    else s
  else if b = "±" then
    if s.current_number ≠ "" ∧ s.current_number ≠ "0" then
      let c :=
        match s.current_number.data with
        | '-' :: rest => (⟨rest⟩ : String)
        | _ => "-" ++ s.current_number
      { s with current_number := c, display := c }
    else s
  else if b = "%" then
    if s.current_number ≠ "" then
      match pyFloat s.current_number with
      | some v =>
        let r := pyStr (v / 100)
        { s with display := r, current_number := r }
      | none => { s with display := "Error" }
    else s
  else s

/-- A sequence of activation events applied in order. -/
def apply_seq (s : CalcState) (bs : List String) : CalcState :=
  bs.foldl apply_button s

/-! ### Layout model (`setup_buttons`) and hit tester (`detect_button_touch`) -/

/-- A stored button region: the hit rectangle's two corners and the centre
(src/calculator.py lines 116-121). -/
structure ButtonRec where
  x1 : ℤ
  y1 : ℤ
  x2 : ℤ
  y2 : ℤ
  cx : ℤ
  cy : ℤ
deriving DecidableEq

/-- The fixed grid of symbols (src/calculator.py lines 42-48). -/
def button_layout : List (List String) :=
  [["C", "±", "%", "÷"],
   ["7", "8", "9", "×"],
   ["4", "5", "6", "-"],
   ["1", "2", "3", "+"],
   ["0", ".", "=", "del"]]

/-- `setup_buttons` (src/calculator.py lines 87-121): the insertion-ordered
button dictionary for a frame of the given size. -/
def setup_buttons (frameWidth _frameHeight : ℤ) : List (String × ButtonRec) :=
  let panel_x := frameWidth - 400
  let start_x := panel_x + 20
  let start_y : ℤ := 200
  (button_layout.enum.map (fun row =>
    (row.2.enum.map (fun col =>
      let x := start_x + (col.1 : ℤ) * (80 + 8)
      let y := start_y + (row.1 : ℤ) * (60 + 8)
      let width : ℤ := if col.2 = "0" then 80 * 2 + 8 else 80
      (col.2, { x1 := x, y1 := y, x2 := x + width, y2 := y + 60,
                cx := x + width / 2, cy := y + 30 : ButtonRec }))))).flatten

/-- `is_point_in_rect` (src/calculator.py lines 132-136). -/
def is_point_in_rect (px py : ℤ) (b : ButtonRec) : Bool :=
  b.x1 ≤ px && px ≤ b.x2 && b.y1 ≤ py && py ≤ b.y2

/-- Squared Euclidean distance.  The source compares
`math.sqrt d < 30` and `math.sqrt d1 < math.sqrt d2`; by strict monotonicity
of the square root these are `d < 900` and `d1 < d2` on the squares. -/
def dist2 (px py cx cy : ℤ) : ℤ := (px - cx) ^ 2 + (py - cy) ^ 2

/-- One iteration of `detect_button_touch`'s loop (src/calculator.py lines
154-168): an in-rectangle button replaces the running best when its centre
distance is below the threshold and below the best so far. -/
def hit_step (p : ℤ × ℤ) (acc : Option (String × ℤ)) (nb : String × ButtonRec) :
    Option (String × ℤ) :=
  if is_point_in_rect p.1 p.2 nb.2 then
    let d := dist2 p.1 p.2 nb.2.cx nb.2.cy
    match acc with
    | none => if d < 900 then some (nb.1, d) else none
    | some best => if d < 900 ∧ d < best.2 then some (nb.1, d) else some best
  else acc

/-- `detect_button_touch` (src/calculator.py lines 142-170), without the
rendering-only hover flags: scan the buttons in dictionary order keeping the
in-rectangle candidate of least centre distance below the 30-unit threshold. -/
def detect_button_touch (buttons : List (String × ButtonRec))
    (finger_pos : Option (ℤ × ℤ)) : Option String :=
  match finger_pos with
  | none => none
  | some p => (buttons.foldl (hit_step p) none).map Prod.fst

/-! ### Touch debouncer (cooldown gate of `process_button_press` and the
frame loop's `if touching and touched_button` guard) -/

/-- The cooldown, in seconds (src/calculator.py line 31). -/
def touch_cooldown : ℚ := 3 / 10

/-- One frame of the debouncer: an activation for the candidate is emitted
iff the pointing gesture is detected, a candidate resolved, and at least the
cooldown has elapsed since the last accepted activation; emission stamps the
last-activation time (src/calculator.py lines 193-197, 296, 553-554). -/
def debounce_step (last : ℚ) (sample : ℚ × Bool × Option String) :
    ℚ × Option (ℚ × String) :=
  if sample.2.1 then
    match sample.2.2 with
    | some b =>
      if sample.1 - last < touch_cooldown then (last, none)
      else (sample.1, some (sample.1, b))
    | none => (last, none)
  else (last, none)

/-- Run the debouncer over a sample stream, collecting emitted activations. -/
def debounce_run (last : ℚ) : List (ℚ × Bool × Option String) → List (ℚ × String)
  | [] => []
  | s :: rest =>
    let r := debounce_step last s
    match r.2 with
    | some e => e :: debounce_run r.1 rest
    | none => debounce_run r.1 rest

/-- Machine state including the debouncer timestamp
(src/calculator.py lines 30-31). -/
structure MachineState where
  calcState : CalcState
  last_touch_time : ℚ
deriving DecidableEq

/-- `process_button_press` including its cooldown gate: within the cooldown
nothing happens; otherwise the calculator state advances and the
last-activation timestamp is set to the current time — on every path,
including the chained-operator error early return (src/calculator.py lines
193-197, 239, 296). -/
def process_button_press (m : MachineState) (b : String) (now : ℚ) : MachineState :=
  if now - m.last_touch_time < touch_cooldown then m
  else { calcState := apply_button m.calcState b, last_touch_time := now }

/-- Concatenation of a list of strings (used to state the digit-entry claim). -/
def concatStrs (ds : List String) : String := ds.foldr (· ++ ·) ""

/-- Leading-zero stripping on the character data. -/
def strip_zeros (s : String) : String := ⟨s.data.dropWhile (· == '0')⟩

/-- Modelled from the spec: the claimed formatting policy of evaluation
results, with the scientific-notation boundary amended from "exceeds 1e9"
to the source's "exceeds 999999999"; applied in order: scientific notation
with two fractional digits when the magnitude exceeds 999999999 or is below
1e-6 and the result is not exactly zero, else a bare integer string when the
result is mathematically integral, else eight fractional digits with trailing
zeros and a trailing point stripped. -/
def spec_format (r : ℚ) : String :=
  if 999999999 < qabs r ∨ (qabs r < 1 / 1000000 ∧ r ≠ 0) then sci2 r
  else if r.den = 1 then intStr r.num
  else rstrip '.' (rstrip '0' (fixed8 r))

/-- The exact value computed by `calculate` for a recognised operator. -/
def op_value (op : String) (a b : ℚ) : ℚ :=
  if op = "+" then a + b
  else if op = "-" then a - b
  else if op = "×" then a * b
  else a / b

/-- An evaluation-ready state used by witnesses. -/
def eqReadyState : CalcState :=
  { current_number := "3", previous_number := "7", operation := "+",
    display := "3", history := [], just_calculated := false }

/-- A live candidate for a point: the point lies inside the button's hit
rectangle and the centre is strictly within the 30-unit activation radius
(squared comparison). -/
def valid_cand (p : ℤ × ℤ) (nb : String × ButtonRec) : Prop :=
  is_point_in_rect p.1 p.2 nb.2 = true ∧ dist2 p.1 p.2 nb.2.cx nb.2.cy < 900

/-! ### Theorems -/

/-- Characters of a string concatenation. -/
theorem str_data_append (s t : String) : (s ++ t).data = s.data ++ t.data := rfl

/-- A string is empty iff its character list is. -/
theorem str_eq_empty_iff (s : String) : s = "" ↔ s.data = [] := by
  constructor
  · intro h
    exact congrArg String.data h
  · intro h
    cases s with
    | mk d =>
      simp only at h
      subst h
      rfl

theorem str_append_ne_empty_right (s t : String) (h : t ≠ "") : s ++ t ≠ "" := by
  intro hc
  rw [str_eq_empty_iff, str_data_append, List.append_eq_nil] at hc
  exact h ((str_eq_empty_iff t).mpr hc.2)

theorem str_append_ne_empty_left (s t : String) (h : s ≠ "") : s ++ t ≠ "" := by
  intro hc
  rw [str_eq_empty_iff, str_data_append, List.append_eq_nil] at hc
  exact h ((str_eq_empty_iff s).mpr hc.1)


/-- C9: whenever a `=` activation is processed while any of the current
operand, pending operator, or previous operand is missing (empty), the whole
calculator state, history included, is unchanged. -/
theorem C9_equals_noop (s : CalcState)
    (h : s.current_number = "" ∨ s.operation = "" ∨ s.previous_number = "") :
    apply_button s "=" = s := by
  have hcond : ¬(s.current_number ≠ "" ∧ s.operation ≠ "" ∧ s.previous_number ≠ "") := by
    rintro ⟨h1, h2, h3⟩
    rcases h with h | h | h
    · exact h1 h
    · exact h2 h
    · exact h3 h
  rw [apply_button]
  rw [if_neg (by decide : ¬(isdigit "=" = true))]
  rw [if_neg (by decide : ¬(("=" : String) = "."))]
  rw [if_neg (by decide :
    ¬(("=" : String) = "+" ∨ ("=" : String) = "-" ∨ ("=" : String) = "×" ∨
      ("=" : String) = "÷"))]
  rw [if_pos rfl]
  rw [if_neg hcond]

/-- Witness for C9 at the initial state, where all three fields are empty. -/
theorem C9_witness : apply_button initState "=" = initState :=
  C9_equals_noop initState (Or.inl rfl)

/-- C10: every activation that passes the cooldown check stamps the
last-activation time with the current time, whatever the button does to the
calculator state, and any further activation of any button within the
cooldown window leaves the machine unchanged. -/
theorem C10_cooldown_stamp (m : MachineState) (b : String) (now : ℚ)
    (h : ¬(now - m.last_touch_time < touch_cooldown)) :
    (process_button_press m b now).last_touch_time = now ∧
      ∀ b2 now2, now2 - now < touch_cooldown →
        process_button_press (process_button_press m b now) b2 now2 =
          process_button_press m b now := by
  rw [process_button_press, if_neg h]
  refine ⟨rfl, ?_⟩
  intro b2 now2 h2
  rw [process_button_press, if_pos h2]

/-- Witness for C10: an accepted activation at time 1 from the initial
machine stamps the timestamp, and a press 0.2 s later is dropped. -/
theorem C10_witness :
    (process_button_press ⟨initState, 0⟩ "=" 1).last_touch_time = 1 ∧
      process_button_press (process_button_press ⟨initState, 0⟩ "=" 1) "5" (6 / 5) =
        process_button_press ⟨initState, 0⟩ "=" 1 := by
  have h := C10_cooldown_stamp ⟨initState, 0⟩ "=" 1 (by decide)
  exact ⟨h.1, h.2 "5" (6 / 5) (by decide)⟩

/-- C2: evaluation of the source at the claimed failing input.  Because the
digit branch appends to the stale display after an operator, pressing `0`
after `÷` yields the second operand `50`; the machine then evaluates
`5 ÷ 50 = 0.1`, displays `0.1` and records a history entry, instead of
reporting the division-by-zero error with history unchanged as the claim
(and the evident intent) requires. -/
theorem C2_code_eval :
    apply_seq initState ["5", "÷", "0", "="] =
      { current_number := "0.1", previous_number := "", operation := "",
        display := "0.1", history := ["5 ÷ 50 = 0.1"], just_calculated := true } := by
  decide

/-- C1 counterexample: after `5, ±, del` the display is the bare sign `-`,
which is neither a numeral, the error marker, nor a scientific form; after a
further `±` the display is the empty string, refuting non-emptiness too. -/
theorem C1_counterexample :
    (apply_seq initState ["5", "±", "del"]).display = "-" ∧
      (apply_seq initState ["5", "±", "del", "±"]).display = "" := by
  decide

/-- C6 counterexample: the digit sequence `0, 5` leaves display `5`, not the
concatenation `05`: a digit replaces a lone zero display. -/
theorem C6_counterexample :
    (apply_seq initState ["0", "5"]).display = "5" ∧ ("5" : String) ≠ "05" := by
  decide

/-- C3 counterexample: at result exactly 1e9 (magnitude not exceeding 1e9,
and integral) the claim requires the bare integer string, but the source
compares against 999999999 and formats scientifically. -/
theorem C3_counterexample :
    calculate "999999999" "+" "1" = "1.00e+09" ∧
      intStr (1000000000 : ℤ) = "1000000000" ∧
      ("1.00e+09" : String) ≠ "1000000000" := by
  decide

/-- C8 counterexample: `%` on operand `500` displays `5.0` (plain `str` of
the float quotient), while the binary-result formatting policy the claim
names would produce the bare integer `5`. -/
theorem C8_counterexample :
    (apply_button { initState with current_number := "500", display := "500" } "%").display
        = "5.0" ∧
      spec_format (500 / 100) = "5" ∧ ("5.0" : String) ≠ "5" := by
  decide

/-- C7 counterexample: in the layout for a 1280x720 frame the bottom-centre
point of button `7` lies inside its hit rectangle at distance exactly 30 from
its centre; the claim keeps candidates that are not farther than the radius,
but the source's strict comparison discards it and resolves no button. -/
theorem C7_counterexample :
    detect_button_touch (setup_buttons 1280 720) (some (940, 328)) = none ∧
      ∃ p ∈ setup_buttons 1280 720, p.1 = "7" ∧ is_point_in_rect 940 328 p.2 = true ∧
        dist2 940 328 p.2.cx p.2.cy = 900 := by
  decide

/-- Appending through `push_history` never leaves more than ten entries. -/
theorem push_history_length_le (h : List String) (e : String) (hh : h.length ≤ 10) :
    (push_history h e).length ≤ 10 := by
  rw [push_history]
  split
  · rename_i hc
    simp only [List.length_drop, List.length_append, List.length_cons,
      List.length_nil] at hc ⊢
    omega
  · rename_i hc
    simp only [List.length_append, List.length_cons, List.length_nil] at hc ⊢
    omega

/-- Every button either leaves the history unchanged or pushes the `=`
record through `push_history`. -/
theorem apply_button_history_cases (s : CalcState) (b : String) :
    (apply_button s b).history = s.history ∨
      (apply_button s b).history = push_history s.history (history_entry s) := by
  rw [apply_button]
  repeat' first
    | (exact Or.inl rfl)
    | (exact Or.inr rfl)
    | split
    | dsimp only

/-- The history bound is invariant under any activation. -/
theorem apply_button_history_le (s : CalcState) (b : String)
    (hh : s.history.length ≤ 10) : (apply_button s b).history.length ≤ 10 := by
  rcases apply_button_history_cases s b with h | h
  · rw [h]; exact hh
  · rw [h]; exact push_history_length_le _ _ hh

/-- The history bound holds after any activation sequence from any state
satisfying it. -/
theorem apply_seq_history_le (bs : List String) :
    ∀ s : CalcState, s.history.length ≤ 10 → (apply_seq s bs).history.length ≤ 10 := by
  induction bs with
  | nil => intro s hs; exact hs
  | cons b rest ih =>
    intro s hs
    exact ih (apply_button s b) (apply_button_history_le s b hs)

/-- A `=` activation with all preconditions met appends exactly the
formatted record through `push_history`. -/
theorem equals_pushes_history (s : CalcState)
    (h1 : s.current_number ≠ "") (h2 : s.operation ≠ "") (h3 : s.previous_number ≠ "") :
    (apply_button s "=").history = push_history s.history (history_entry s) := by
  rw [apply_button]
  rw [if_neg (by decide : ¬(isdigit "=" = true))]
  rw [if_neg (by decide : ¬(("=" : String) = "."))]
  rw [if_neg (by decide :
    ¬(("=" : String) = "+" ∨ ("=" : String) = "-" ∨ ("=" : String) = "×" ∨
      ("=" : String) = "÷"))]
  rw [if_pos rfl]
  rw [if_pos ⟨h1, h2, h3⟩]

/-- C4: the history never exceeds ten entries along any activation sequence
from the initial state; eleven FIFO pushes from the empty log retain exactly
the 2nd through 11th entries in order; and each successful `=` activation
records its entry through exactly that FIFO push. -/
theorem C4_history_capacity :
    (∀ bs : List String, (apply_seq initState bs).history.length ≤ 10) ∧
    (∀ e1 e2 e3 e4 e5 e6 e7 e8 e9 e10 e11 : String,
      List.foldl push_history []
          [e1, e2, e3, e4, e5, e6, e7, e8, e9, e10, e11] =
        [e2, e3, e4, e5, e6, e7, e8, e9, e10, e11]) ∧
    (∀ s : CalcState, s.current_number ≠ "" → s.operation ≠ "" →
      s.previous_number ≠ "" →
      (apply_button s "=").history = push_history s.history (history_entry s)) := by
  refine ⟨fun bs => apply_seq_history_le bs initState (by decide), ?_, ?_⟩
  · intro e1 e2 e3 e4 e5 e6 e7 e8 e9 e10 e11
    simp [push_history]
  · exact fun s h1 h2 h3 => equals_pushes_history s h1 h2 h3

/-- Witness for C4 at a concrete evaluation-ready state and a concrete
activation sequence. -/
theorem C4_witness :
    (apply_seq initState ["7", "+", "3", "="]).history.length ≤ 10 ∧
      (apply_button eqReadyState "=").history =
        push_history eqReadyState.history (history_entry eqReadyState) := by
  refine ⟨C4_history_capacity.1 _, ?_⟩
  exact C4_history_capacity.2.2 eqReadyState (by decide) (by decide) (by decide)

/-- Case analysis of one debouncer frame: either nothing is emitted and the
timestamp is kept, or the frame points at a candidate past the cooldown and
an activation is emitted at the frame time. -/
theorem debounce_step_cases (last : ℚ) (smp : ℚ × Bool × Option String) :
    debounce_step last smp = (last, none) ∨
      ∃ b, smp.2.1 = true ∧ smp.2.2 = some b ∧ last + touch_cooldown ≤ smp.1 ∧
        debounce_step last smp = (smp.1, some (smp.1, b)) := by
  obtain ⟨now, pointing, cand⟩ := smp
  rw [debounce_step]
  cases pointing with
  | false => left; rfl
  | true =>
    rw [if_pos rfl]
    cases cand with
    | none => left; rfl
    | some b =>
      dsimp only
      by_cases ht : now - last < touch_cooldown
      · rw [if_pos ht]; left; rfl
      · rw [if_neg ht]
        right
        exact ⟨b, rfl, rfl, by push_neg at ht; linarith, rfl⟩

/-- Full behaviour of a debouncer run: emissions are spaced by at least the
cooldown in order, every emission is at least a cooldown after the incoming
timestamp, and every emission comes from a sample that was pointing at that
candidate at that time. -/
theorem debounce_run_spec (samples : List (ℚ × Bool × Option String)) :
    ∀ last : ℚ,
      ((debounce_run last samples).Pairwise fun e1 e2 =>
        e1.1 + touch_cooldown ≤ e2.1) ∧
      (∀ e ∈ debounce_run last samples, last + touch_cooldown ≤ e.1) ∧
      (∀ e ∈ debounce_run last samples, ∃ smp ∈ samples,
        smp.1 = e.1 ∧ smp.2.1 = true ∧ smp.2.2 = some e.2) := by
  induction samples with
  | nil =>
    intro last
    refine ⟨by simp [debounce_run], by simp [debounce_run], by simp [debounce_run]⟩
  | cons smp rest ih =>
    intro last
    rcases debounce_step_cases last smp with h | ⟨b, hp, hc, hge, h⟩
    · rw [debounce_run, h]
      obtain ⟨ih1, ih2, ih3⟩ := ih last
      refine ⟨ih1, ih2, ?_⟩
      intro e he
      obtain ⟨s2, hin, hs⟩ := ih3 e he
      exact ⟨s2, List.mem_cons_of_mem _ hin, hs⟩
    · rw [debounce_run, h]
      obtain ⟨ih1, ih2, ih3⟩ := ih smp.1
      have hcool : (0 : ℚ) < touch_cooldown := by norm_num [touch_cooldown]
      refine ⟨?_, ?_, ?_⟩
      · exact List.Pairwise.cons (fun e he => ih2 e he) ih1
      · intro e he
        rcases List.mem_cons.mp he with rfl | he2
        · exact hge
        · have := ih2 e he2
          linarith
      · intro e he
        rcases List.mem_cons.mp he with rfl | he2
        · exact ⟨smp, List.mem_cons_self _ _, rfl, hp, hc⟩
        · obtain ⟨s2, hin, hs⟩ := ih3 e he2
          exact ⟨s2, List.mem_cons_of_mem _ hin, hs⟩

/-- C5: over any sample stream from the initial debouncer state, any two
emitted activations in order are at least the 300 ms cooldown apart, and an
activation is only emitted for a sample whose pointing flag is true and whose
candidate is present at that timestamp. -/
theorem C5_debounce_rate_limit (samples : List (ℚ × Bool × Option String)) :
    ((debounce_run 0 samples).Pairwise fun e1 e2 =>
      e1.1 + touch_cooldown ≤ e2.1) ∧
    (∀ e ∈ debounce_run 0 samples, ∃ smp ∈ samples,
      smp.1 = e.1 ∧ smp.2.1 = true ∧ smp.2.2 = some e.2) :=
  ⟨(debounce_run_spec samples 0).1, (debounce_run_spec samples 0).2.2⟩

/-- Witness for C5: three pointing samples on one candidate at 1.0 s, 1.1 s
and 1.4 s emit exactly at 1.0 s and 1.4 s, 0.4 s apart. -/
theorem C5_witness :
    (((debounce_run 0 [(1, true, some "5"), (11 / 10, true, some "5"),
        (14 / 10, true, some "5")]).Pairwise fun e1 e2 =>
      e1.1 + touch_cooldown ≤ e2.1) ∧
    (∀ e ∈ debounce_run 0 [(1, true, some "5"), (11 / 10, true, some "5"),
        (14 / 10, true, some "5")], ∃ smp ∈ ([(1, true, some "5"),
        (11 / 10, true, some "5"), (14 / 10, true, some "5")] :
          List (ℚ × Bool × Option String)),
      smp.1 = e.1 ∧ smp.2.1 = true ∧ smp.2.2 = some e.2)) :=
  C5_debounce_rate_limit _

/-- C8 (amended): a `%` activation with a non-empty parseable operand sets
both the current operand and the display to the plain string conversion of
the operand divided by 100 (Python float `str`, which keeps a trailing `.0`
on integral values), not the binary-result formatting policy; a non-empty
operand that fails to parse sets the display to the error marker and leaves
the operand as it was. -/
theorem C8_percent :
    (∀ (s : CalcState) (v : ℚ), s.current_number ≠ "" →
      pyFloat s.current_number = some v →
      apply_button s "%" =
        { s with display := pyStr (v / 100), current_number := pyStr (v / 100) }) ∧
    (∀ s : CalcState, s.current_number ≠ "" → pyFloat s.current_number = none →
      apply_button s "%" = { s with display := "Error" }) := by
  constructor
  · intro s v hne hv
    rw [apply_button]
    rw [if_neg (by decide : ¬(isdigit "%" = true))]
    rw [if_neg (by decide : ¬(("%" : String) = "."))]
    rw [if_neg (by decide :
      ¬(("%" : String) = "+" ∨ ("%" : String) = "-" ∨ ("%" : String) = "×" ∨
        ("%" : String) = "÷"))]
    rw [if_neg (by decide : ¬(("%" : String) = "="))]
    rw [if_neg (by decide : ¬(("%" : String) = "C"))]
    rw [if_neg (by decide : ¬(("%" : String) = "del"))]
    rw [if_neg (by decide : ¬(("%" : String) = "±"))]
    rw [if_pos rfl, if_pos hne, hv]
  · intro s hne hv
    rw [apply_button]
    rw [if_neg (by decide : ¬(isdigit "%" = true))]
    rw [if_neg (by decide : ¬(("%" : String) = "."))]
    rw [if_neg (by decide :
      ¬(("%" : String) = "+" ∨ ("%" : String) = "-" ∨ ("%" : String) = "×" ∨
        ("%" : String) = "÷"))]
    rw [if_neg (by decide : ¬(("%" : String) = "="))]
    rw [if_neg (by decide : ¬(("%" : String) = "C"))]
    rw [if_neg (by decide : ¬(("%" : String) = "del"))]
    rw [if_neg (by decide : ¬(("%" : String) = "±"))]
    rw [if_pos rfl, if_pos hne, hv]

/-- Witness for C8: pressing `%` on operand 200 displays `2.0`. -/
theorem C8_witness :
    (apply_button { initState with current_number := "200", display := "200" } "%").display
      = "2.0" := by
  have h := C8_percent.1 { initState with current_number := "200", display := "200" }
    200 (by decide) (by decide)
  rw [h]
  decide

/-- C3 (amended): for parseable operands and a recognised operator, excluding
division by zero, `calculate` produces exactly the claimed ordered formatting
policy applied to the exact result, with the scientific-notation boundary
amended from "exceeds 1e9" to "exceeds 999999999". -/
theorem C3_formatting_policy (a op b : String) (va vb : ℚ)
    (ha : pyFloat a = some va) (hb : pyFloat b = some vb)
    (hop : op = "+" ∨ op = "-" ∨ op = "×" ∨ op = "÷")
    (hdz : op = "÷" → vb ≠ 0) :
    calculate a op b = spec_format (op_value op va vb) := by
  have hfs : ∀ r : ℚ, formatResult r = spec_format r := fun _ => rfl
  rw [calculate, ha, hb]
  dsimp only
  rcases hop with h | h | h | h <;> subst h
  · rw [if_pos rfl, op_value, if_pos rfl, hfs]
  · rw [if_neg (by decide : ¬(("-" : String) = "+")), if_pos rfl]
    rw [op_value, if_neg (by decide : ¬(("-" : String) = "+")), if_pos rfl, hfs]
  · rw [if_neg (by decide : ¬(("×" : String) = "+")),
      if_neg (by decide : ¬(("×" : String) = "-")), if_pos rfl]
    rw [op_value, if_neg (by decide : ¬(("×" : String) = "+")),
      if_neg (by decide : ¬(("×" : String) = "-")), if_pos rfl, hfs]
  · rw [if_neg (by decide : ¬(("÷" : String) = "+")),
      if_neg (by decide : ¬(("÷" : String) = "-")),
      if_neg (by decide : ¬(("÷" : String) = "×")), if_pos rfl,
      if_neg (hdz rfl)]
    rw [op_value, if_neg (by decide : ¬(("÷" : String) = "+")),
      if_neg (by decide : ¬(("÷" : String) = "-")),
      if_neg (by decide : ¬(("÷" : String) = "×")), hfs]

/-- Witness for C3 at `1 ÷ 3`. -/
theorem C3_witness : calculate "1" "÷" "3" = spec_format (op_value "÷" 1 3) :=
  C3_formatting_policy "1" "÷" "3" 1 3 (by decide) (by decide)
    (Or.inr (Or.inr (Or.inr rfl))) (fun _ => by norm_num)

/-- Strings with equal character data are equal. -/
theorem str_ext (s t : String) (h : s.data = t.data) : s = t := by
  cases s
  cases t
  exact congrArg String.mk h

theorem str_append_empty (s : String) : s ++ "" = s :=
  str_ext _ _ (by rw [str_data_append]; exact List.append_nil _)

theorem str_append_assoc (a b c : String) : a ++ b ++ c = a ++ (b ++ c) :=
  str_ext _ _ (by simp only [str_data_append]; exact List.append_assoc _ _ _)

theorem head?_append_of_ne_nil (l1 l2 : List Char) (h : l1 ≠ []) :
    (l1 ++ l2).head? = l1.head? := by
  cases l1 with
  | nil => exact absurd rfl h
  | cons a t => rfl

/-- `apply_seq` unfolds one step at a time. -/
theorem apply_seq_cons (s : CalcState) (b : String) (bs : List String) :
    apply_seq s (b :: bs) = apply_seq (apply_button s b) bs := rfl

/-- A successful pattern match at the head pins down the head character. -/
theorem chars_start_with_head (a : Char) (pat l : List Char)
    (h : chars_start_with (a :: pat) l = true) : l.head? = some a := by
  cases l with
  | nil => simp [chars_start_with] at h
  | cons b bs =>
    rw [chars_start_with, Bool.and_eq_true, beq_iff_eq] at h
    rw [List.head?_cons]
    exact congrArg some h.1.symm

/-- A substring occurrence puts the pattern's head character in the text. -/
theorem chars_contain_mem (a : Char) (pat l : List Char)
    (h : chars_contain (a :: pat) l = true) : a ∈ l := by
  induction l with
  | nil => simp [chars_contain, chars_start_with] at h
  | cons b bs ih =>
    rw [chars_contain, Bool.or_eq_true] at h
    rcases h with h1 | h2
    · have hh := chars_start_with_head a pat _ h1
      rw [List.head?_cons] at hh
      injection hh with hba
      rw [hba]
      exact List.mem_cons_self _ _
    · exact List.mem_cons_of_mem _ (ih h2)

/-- A string of digit characters never contains the error marker. -/
theorem contains_error_eq_false (s : String)
    (h : ∀ c ∈ s.data, c.isDigit = true) : contains_error s = false := by
  rw [contains_error, str_contains]
  cases hcc : chars_contain ("Error".data) s.data with
  | false => rfl
  | true =>
    have hmem : 'E' ∈ s.data := chars_contain_mem 'E' ['r', 'r', 'o', 'r'] s.data hcc
    exact absurd (h 'E' hmem) (by decide)

/-- Digit entry onto a non-zero digit display is plain concatenation. -/
theorem digit_fold_general (ds : List String) :
    ∀ s : CalcState, s.just_calculated = false →
      s.display.data ≠ [] → s.display.data.head? ≠ some '0' →
      (∀ c ∈ s.display.data, c.isDigit = true) →
      s.display.data.length + ds.length ≤ 12 →
      (∀ d ∈ ds, isdigit d = true ∧ d.data.length = 1) →
      (apply_seq s ds).display = s.display ++ concatStrs ds := by
  induction ds with
  | nil =>
    intro s _ _ _ _ _ _
    exact (str_append_empty s.display).symm
  | cons d rest ih =>
    intro s hjc hne hhead hdig hlen hds
    obtain ⟨hdd, hd1⟩ := hds d (List.mem_cons_self _ _)
    have hnz : ¬(s.display = "0" ∨ contains_error s.display = true) := by
      rintro (h0 | herr)
      · apply hhead
        rw [h0]
        rfl
      · rw [contains_error_eq_false s.display hdig] at herr
        exact Bool.false_ne_true herr
    have hlt : s.display.length < 12 := by
      have : s.display.length = s.display.data.length := rfl
      simp only [List.length_cons] at hlen
      omega
    have hstep : apply_button s d =
        { s with display := s.display ++ d, current_number := s.display ++ d } := by
      rw [apply_button, if_pos hdd, if_neg (by simp [hjc])]
      dsimp only
      rw [if_neg hnz, if_pos hlt]
    rw [apply_seq_cons, hstep]
    have hdata : (s.display ++ d).data = s.display.data ++ d.data := str_data_append _ _
    have happ := ih { s with display := s.display ++ d, current_number := s.display ++ d }
      hjc
      (by rw [hdata]; intro hx; exact hne (List.append_eq_nil.mp hx).1)
      (by
        show (s.display ++ d).data.head? ≠ some '0'
        rw [hdata, head?_append_of_ne_nil _ _ hne]
        exact hhead)
      (by
        intro c hc
        rw [hdata] at hc
        rcases List.mem_append.mp hc with hc | hc
        · exact hdig c hc
        · rw [isdigit, Bool.and_eq_true, List.all_eq_true] at hdd
          exact hdd.2 c hc)
      (by
        show (s.display ++ d).data.length + rest.length ≤ 12
        rw [hdata, List.length_append, hd1]
        simp only [List.length_cons] at hlen
        omega)
      (fun x hx => hds x (List.mem_cons_of_mem _ hx))
    rw [happ]
    show s.display ++ d ++ concatStrs rest = s.display ++ concatStrs (d :: rest)
    rw [str_append_assoc]
    rfl

/-- Digit entry from a zero display yields the concatenation of the digits
with leading zeros collapsed. -/
theorem digit_fold_from_zero (ds : List String) :
    ∀ s : CalcState, s.display = "0" → s.just_calculated = false →
      ds.length ≤ 12 → (∀ d ∈ ds, isdigit d = true ∧ d.data.length = 1) →
      (apply_seq s ds).display =
        (if strip_zeros (concatStrs ds) = "" then "0"
         else strip_zeros (concatStrs ds)) := by
  induction ds with
  | nil =>
    intro s hdisp _ _ _
    have h0 : strip_zeros (concatStrs []) = "" := by decide
    rw [if_pos h0]
    exact hdisp
  | cons d rest ih =>
    intro s hdisp hjc hlen hds
    obtain ⟨hdd, hd1⟩ := hds d (List.mem_cons_self _ _)
    have hstep : apply_button s d = { s with display := d, current_number := d } := by
      rw [apply_button, if_pos hdd, if_neg (by simp [hjc])]
      dsimp only
      rw [if_pos (Or.inl hdisp)]
    by_cases hz : d = "0"
    · subst hz
      have hstrip : strip_zeros (concatStrs ("0" :: rest)) =
          strip_zeros (concatStrs rest) := by
        apply str_ext
        show List.dropWhile (· == '0') ('0' :: (concatStrs rest).data) =
          List.dropWhile (· == '0') (concatStrs rest).data
        rw [List.dropWhile_cons, if_pos (by decide : (('0' == '0') = true))]
      rw [apply_seq_cons, hstep, hstrip]
      exact ih { s with display := "0", current_number := "0" } rfl hjc
        (by simp only [List.length_cons] at hlen; omega)
        (fun x hx => hds x (List.mem_cons_of_mem _ hx))
    · obtain ⟨c, hc⟩ := List.length_eq_one.mp hd1
      have hcdig : c.isDigit = true := by
        rw [isdigit, Bool.and_eq_true, List.all_eq_true] at hdd
        exact hdd.2 c (by rw [hc]; exact List.mem_singleton.mpr rfl)
      have hcne : c ≠ '0' := by
        intro h
        apply hz
        apply str_ext
        rw [hc, h]
      have hstrip : strip_zeros (concatStrs (d :: rest)) = d ++ concatStrs rest := by
        apply str_ext
        show List.dropWhile (· == '0') (d.data ++ (concatStrs rest).data) =
          (d ++ concatStrs rest).data
        rw [hc, List.singleton_append, List.dropWhile_cons,
          if_neg (by simpa using hcne)]
        rw [str_data_append, hc, List.singleton_append]
      have hdne : d ≠ "" := by
        intro hx
        rw [str_eq_empty_iff, hc] at hx
        exact List.cons_ne_nil c [] hx
      have hne2 : d ++ concatStrs rest ≠ "" := str_append_ne_empty_left _ _ hdne
      rw [apply_seq_cons, hstep]
      have hgen := digit_fold_general rest { s with display := d, current_number := d }
        hjc
        (by show d.data ≠ []; rw [hc]; exact List.cons_ne_nil _ _)
        (by
          show d.data.head? ≠ some '0'
          rw [hc, List.head?_cons]
          intro hx
          injection hx with hx
          exact hcne hx)
        (by
          intro x hx
          show x.isDigit = true
          rw [hc, List.mem_singleton] at hx
          rw [hx]
          exact hcdig)
        (by
          show d.data.length + rest.length ≤ 12
          rw [hd1]
          simp only [List.length_cons] at hlen
          omega)
        (fun x hx => hds x (List.mem_cons_of_mem _ hx))
      rw [hgen, hstrip, if_neg hne2]

/-- C6 (amended): for digit-button sequences of length at most twelve applied
to a non-just-evaluated state displaying `0`, the resulting display is the
concatenation of the digits with leading zeros collapsed (`0` when every
digit is `0` or the sequence is empty); a digit replaces a lone zero display,
so the raw concatenation claim fails for sequences starting with `0`. -/
theorem C6_digit_entry (s : CalcState) (ds : List String)
    (hdisp : s.display = "0") (hjc : s.just_calculated = false)
    (hlen : ds.length ≤ 12) (hds : ∀ d ∈ ds, isdigit d = true ∧ d.data.length = 1) :
    (apply_seq s ds).display =
      (if strip_zeros (concatStrs ds) = "" then "0"
       else strip_zeros (concatStrs ds)) :=
  digit_fold_from_zero ds s hdisp hjc hlen hds

/-- Witness for C6 on the sequence `0, 5, 0` from the initial state. -/
theorem C6_witness :
    (apply_seq initState ["0", "5", "0"]).display =
      (if strip_zeros (concatStrs ["0", "5", "0"]) = "" then "0"
       else strip_zeros (concatStrs ["0", "5", "0"])) :=
  C6_digit_entry initState ["0", "5", "0"] rfl rfl (by decide) (by decide)

/-- One loop step of the hit tester either keeps the running best (and then
any valid incoming button is no nearer), or replaces it with the incoming
valid button at a strictly smaller distance. -/
theorem hit_step_cases (p : ℤ × ℤ) (acc : Option (String × ℤ)) (nb : String × ButtonRec) :
    (hit_step p acc nb = acc ∧ (acc = none → ¬valid_cand p nb) ∧
      (∀ n0 d0, acc = some (n0, d0) → valid_cand p nb →
        d0 ≤ dist2 p.1 p.2 nb.2.cx nb.2.cy)) ∨
    (hit_step p acc nb = some (nb.1, dist2 p.1 p.2 nb.2.cx nb.2.cy) ∧
      valid_cand p nb ∧
      (∀ n0 d0, acc = some (n0, d0) → dist2 p.1 p.2 nb.2.cx nb.2.cy ≤ d0)) := by
  rw [hit_step]
  by_cases hr : is_point_in_rect p.1 p.2 nb.2 = true
  · rw [if_pos hr]
    dsimp only
    cases acc with
    | none =>
      by_cases hd : dist2 p.1 p.2 nb.2.cx nb.2.cy < 900
      · rw [if_pos hd]
        right
        exact ⟨rfl, ⟨hr, hd⟩, fun n0 d0 h0 => Option.noConfusion h0⟩
      · rw [if_neg hd]
        left
        exact ⟨rfl, fun _ hv => hd hv.2, fun n0 d0 h0 => Option.noConfusion h0⟩
    | some best =>
      dsimp only
      by_cases hd : dist2 p.1 p.2 nb.2.cx nb.2.cy < 900 ∧
          dist2 p.1 p.2 nb.2.cx nb.2.cy < best.2
      · rw [if_pos hd]
        right
        refine ⟨rfl, ⟨hr, hd.1⟩, ?_⟩
        intro n0 d0 h0
        injection h0 with h0
        rw [h0] at hd
        exact le_of_lt hd.2
      · rw [if_neg hd]
        left
        refine ⟨rfl, fun h0 => Option.noConfusion h0, ?_⟩
        intro n0 d0 h0 hv
        injection h0 with h0
        rw [h0] at hd
        by_contra hlt
        push_neg at hlt
        exact hd ⟨hv.2, hlt⟩
  · rw [if_neg hr]
    left
    exact ⟨rfl, fun _ hv => hr hv.1,
      fun n0 d0 h0 hv => absurd hv.1 hr⟩

/-- Full behaviour of the hit tester's fold: a `none` result means no valid
candidate anywhere; a `some` result is a valid candidate from the list (or
the incoming accumulator) whose distance is minimal among all valid
candidates and no larger than the accumulator's. -/
theorem hit_fold_spec (p : ℤ × ℤ) :
    ∀ (l : List (String × ButtonRec)) (acc : Option (String × ℤ)),
      (List.foldl (hit_step p) acc l = none →
        acc = none ∧ ∀ nb ∈ l, ¬valid_cand p nb) ∧
      (∀ n d, List.foldl (hit_step p) acc l = some (n, d) →
        ((∃ b, (n, b) ∈ l ∧ valid_cand p (n, b) ∧ d = dist2 p.1 p.2 b.cx b.cy) ∨
          acc = some (n, d)) ∧
        (∀ nb ∈ l, valid_cand p nb → d ≤ dist2 p.1 p.2 nb.2.cx nb.2.cy) ∧
        (∀ n0 d0, acc = some (n0, d0) → d ≤ d0)) := by
  intro l
  induction l with
  | nil =>
    intro acc
    constructor
    · intro h
      exact ⟨h, by simp⟩
    · intro n d h
      refine ⟨Or.inr h, by simp, ?_⟩
      intro n0 d0 h0
      have h2 := h.symm.trans h0
      injection h2 with h2
      injection h2 with _ h2
      exact le_of_eq h2
  | cons nb rest ih =>
    intro acc
    rw [List.foldl_cons]
    rcases hit_step_cases p acc nb with ⟨hkeep, hnone, hle⟩ | ⟨hrep, hval, hge⟩
    · rw [hkeep]
      constructor
      · intro h
        obtain ⟨hacc, hrest⟩ := (ih acc).1 h
        refine ⟨hacc, ?_⟩
        intro x hx
        rcases List.mem_cons.mp hx with rfl | hx2
        · exact hnone hacc
        · exact hrest x hx2
      · intro n d h
        obtain ⟨hA, hB, hC⟩ := (ih acc).2 n d h
        refine ⟨?_, ?_, hC⟩
        · rcases hA with ⟨b, hb, hv, hd⟩ | hacc
          · exact Or.inl ⟨b, List.mem_cons_of_mem _ hb, hv, hd⟩
          · exact Or.inr hacc
        · intro x hx hv
          rcases List.mem_cons.mp hx with rfl | hx2
          · cases hacc : acc with
            | none => exact absurd hv (hnone hacc)
            | some v =>
              have h1 := hle v.1 v.2 (by rw [hacc]) hv
              have h2 := hC v.1 v.2 (by rw [hacc])
              exact le_trans h2 h1
          · exact hB x hx2 hv
    · rw [hrep]
      constructor
      · intro h
        obtain ⟨hacc, _⟩ := (ih _).1 h
        exact absurd hacc (by simp)
      · intro n d h
        obtain ⟨hA, hB, hC⟩ := (ih _).2 n d h
        have hdle : d ≤ dist2 p.1 p.2 nb.2.cx nb.2.cy :=
          hC nb.1 (dist2 p.1 p.2 nb.2.cx nb.2.cy) rfl
        refine ⟨?_, ?_, ?_⟩
        · rcases hA with ⟨b, hb, hv, hd⟩ | hacc
          · exact Or.inl ⟨b, List.mem_cons_of_mem _ hb, hv, hd⟩
          · injection hacc with hacc
            injection hacc with h1 h2
            refine Or.inl ⟨nb.2, ?_, ?_, h2.symm⟩
            · rw [← h1]
              exact List.mem_cons_self _ _
            · rw [← h1]
              exact hval
        · intro x hx hv
          rcases List.mem_cons.mp hx with rfl | hx2
          · exact hdle
          · exact hB x hx2 hv
        · intro n0 d0 h0
          exact le_trans hdle (hge n0 d0 h0)

/-- C7 (amended): for every layout and point, the hit tester resolves no
button when the point is absent; a `none` result means no button both
contains the point and has its centre strictly within the 30-unit radius
(the source discards distance exactly 30, where the claim would keep it);
a resolved button is such a valid candidate of minimal centre distance; and
the concrete two-rectangle overlap with centre distances 10 and 25 resolves
to the nearer button. -/
theorem C7_hit_tester :
    (∀ buttons : List (String × ButtonRec), detect_button_touch buttons none = none) ∧
    (∀ (buttons : List (String × ButtonRec)) (px py : ℤ),
      (detect_button_touch buttons (some (px, py)) = none →
        ∀ nb ∈ buttons, ¬valid_cand (px, py) nb) ∧
      (∀ name, detect_button_touch buttons (some (px, py)) = some name →
        ∃ b, (name, b) ∈ buttons ∧ valid_cand (px, py) (name, b) ∧
          ∀ nb ∈ buttons, valid_cand (px, py) nb →
            dist2 px py b.cx b.cy ≤ dist2 px py nb.2.cx nb.2.cy)) ∧
    detect_button_touch
      [("A", ⟨-30, -30, 50, 30, 10, 0⟩), ("B", ⟨-35, -40, 85, 40, 25, 0⟩)]
      (some (0, 0)) = some "A" := by
  refine ⟨fun buttons => rfl, ?_, by decide⟩
  intro buttons px py
  constructor
  · intro h nb hmem
    rw [detect_button_touch] at h
    have hf : List.foldl (hit_step (px, py)) none buttons = none := by
      cases hff : List.foldl (hit_step (px, py)) none buttons with
      | none => rfl
      | some v =>
        rw [hff] at h
        exact Option.noConfusion h
    exact ((hit_fold_spec (px, py) buttons none).1 hf).2 nb hmem
  · intro name h
    rw [detect_button_touch] at h
    cases hff : List.foldl (hit_step (px, py)) none buttons with
    | none =>
      rw [hff] at h
      exact Option.noConfusion h
    | some v =>
      rw [hff] at h
      obtain ⟨n2, d⟩ := v
      have hn : n2 = name := by
        injection h
      subst hn
      have hspec := (hit_fold_spec (px, py) buttons none).2 n2 d hff
      rcases hspec.1 with ⟨b, hb, hv, hd⟩ | hacc
      · refine ⟨b, hb, hv, ?_⟩
        intro nb hm hv2
        have := hspec.2.1 nb hm hv2
        rw [hd] at this
        exact this
      · exact Option.noConfusion hacc

/-- Witness for C7: in the 1280x720 layout the centre of button `7` is a
valid candidate for its own centre point, at minimal distance. -/
theorem C7_witness :
    detect_button_touch (setup_buttons 1280 720) none = none ∧
      ∃ b, ("7", b) ∈ setup_buttons 1280 720 ∧
        valid_cand ((940 : ℤ), (298 : ℤ)) ("7", b) ∧
        ∀ nb ∈ setup_buttons 1280 720, valid_cand ((940 : ℤ), (298 : ℤ)) nb →
          dist2 940 298 b.cx b.cy ≤ dist2 940 298 nb.2.cx nb.2.cy := by
  refine ⟨C7_hit_tester.1 _, ?_⟩
  exact (C7_hit_tester.2.1 (setup_buttons 1280 720) 940 298).2 "7" (by decide)

/-- Rendering a non-zero natural is a non-empty digit list. -/
theorem natStr_ne_empty (n : ℕ) : natStr n ≠ "" := by
  rw [natStr]
  split
  · decide
  · rename_i hn
    intro hcontr
    rw [str_eq_empty_iff] at hcontr
    cases n with
    | zero => exact hn rfl
    | succ m =>
      rw [natStrAux, if_neg hn] at hcontr
      exact absurd hcontr (by simp)

theorem intStr_ne_empty (i : ℤ) : intStr i ≠ "" := by
  rw [intStr]
  split
  · exact str_append_ne_empty_right _ _ (natStr_ne_empty _)
  · exact natStr_ne_empty _

theorem sci2_ne_empty (r : ℚ) : sci2 r ≠ "" := by
  rw [sci2]
  split
  · decide
  · dsimp only
    apply str_append_ne_empty_right
    split
    all_goals split
    all_goals first
      | exact str_append_ne_empty_left "e+" _ (by decide)
      | exact str_append_ne_empty_left "e-" _ (by decide)

theorem digitChar_isDigit (n : ℕ) (h : n < 10) : (digitChar n).isDigit = true := by
  interval_cases n <;> decide

theorem natStrAux_digits (fuel : ℕ) :
    ∀ n : ℕ, ∀ c ∈ natStrAux fuel n, c.isDigit = true := by
  induction fuel with
  | zero =>
    intro n c hc
    simp [natStrAux] at hc
  | succ f ih =>
    intro n c hc
    rw [natStrAux] at hc
    by_cases hn : n = 0
    · rw [if_pos hn] at hc
      simp at hc
    · rw [if_neg hn] at hc
      rcases List.mem_append.mp hc with h | h
      · exact ih _ c h
      · rw [List.mem_singleton] at h
        rw [h]
        exact digitChar_isDigit _ (Nat.mod_lt _ (by norm_num))

theorem natStr_digits (n : ℕ) : ∀ c ∈ (natStr n).data, c.isDigit = true := by
  rw [natStr]
  split
  · intro c hc
    have h0 : ("0" : String).data = ['0'] := rfl
    rw [h0, List.mem_singleton] at hc
    rw [hc]
    decide
  · exact natStrAux_digits n n

/-- Dropping a prefix of `c`-characters from the tail cannot pass a
non-`c` character. -/
theorem suffix_dropWhile (p : Char → Bool) (a : Char) (ha : p a = false) :
    ∀ l1 l2 : List Char, (a :: l2) <:+ List.dropWhile p (l1 ++ a :: l2) := by
  intro l1 l2
  induction l1 with
  | nil =>
    rw [List.nil_append, List.dropWhile_cons, ha]
    rw [if_neg (by decide : ¬((false : Bool) = true))]
  | cons c t ih =>
    rw [List.cons_append, List.dropWhile_cons]
    split
    · exact ih
    · exact (List.suffix_append t (a :: l2)).trans (List.suffix_cons c _)

/-- The part of a string before (and including) a non-stripped character
survives a right strip. -/
theorem rstrip_data_split (c x : Char) (s : String) (pre post : List Char)
    (hx : (x == c) = false) (hs : s.data = pre ++ x :: post) :
    ∃ post2 : List Char, (rstrip c s).data = pre ++ x :: post2 := by
  obtain ⟨t, ht⟩ := suffix_dropWhile (· == c) x hx post.reverse pre.reverse
  refine ⟨t.reverse, ?_⟩
  show (s.data.reverse.dropWhile (· == c)).reverse = pre ++ x :: t.reverse
  have hrev : s.data.reverse = post.reverse ++ x :: pre.reverse := by
    rw [hs, List.reverse_append, List.reverse_cons, List.append_assoc,
      List.singleton_append]
  rw [hrev, ← ht]
  simp

theorem rstrip_ne_empty_of_split (c x : Char) (s : String) (pre post : List Char)
    (hx : (x == c) = false) (hs : s.data = pre ++ x :: post) : rstrip c s ≠ "" := by
  obtain ⟨post2, hdata⟩ := rstrip_data_split c x s pre post hx hs
  intro hcontr
  rw [str_eq_empty_iff, hdata] at hcontr
  exact absurd (List.append_eq_nil.mp hcontr).2 (List.cons_ne_nil _ _)

/-- Generic shape lemma: a sign, a non-empty block of digits, a point, then
a tail, exposes a final integer-part digit right before the point. -/
theorem append_dot_split (s1 ip fp : String)
    (hip : ip.data ≠ []) (hdig : ∀ c ∈ ip.data, c.isDigit = true) :
    ∃ pre d post, d.isDigit = true ∧
      (s1 ++ ip ++ "." ++ fp).data = (pre ++ [d]) ++ '.' :: post := by
  rcases List.eq_nil_or_concat ip.data with h | ⟨q, d, hq⟩
  · exact absurd h hip
  · have hq2 : ip.data = q ++ [d] := by rw [hq, List.concat_eq_append]
    refine ⟨s1.data ++ q, d, fp.data,
      hdig d (by rw [hq2]; exact List.mem_append_right _ (List.mem_singleton.mpr rfl)), ?_⟩
    show ((s1 ++ ip ++ ".") ++ fp).data = _
    rw [str_data_append, str_data_append, str_data_append, hq2]
    simp

/-- The digit block of `fixed8` (zero-padded to at least nine digits). -/
theorem fixed8_digits_digits (r : ℚ) : ∀ c ∈ fixed8_digits r, c.isDigit = true := by
  rw [fixed8_digits]
  split
  · intro c hc
    rcases List.mem_append.mp hc with h | h
    · rw [List.eq_of_mem_replicate h]
      decide
    · exact natStr_digits _ c h
  · exact natStr_digits _

theorem fixed8_digits_long (r : ℚ) : 9 ≤ (fixed8_digits r).length := by
  rw [fixed8_digits]
  split
  · rename_i hlt
    rw [List.length_append, List.length_replicate]
    omega
  · rename_i hge
    omega

theorem fixed8_ip_ne_nil (r : ℚ) :
    (fixed8_digits r).take ((fixed8_digits r).length - 8) ≠ [] := by
  intro h
  have hlen := congrArg List.length h
  rw [List.length_take, List.length_nil] at hlen
  have h9 := fixed8_digits_long r
  omega

theorem fixed8_split (r : ℚ) :
    ∃ pre d post, d.isDigit = true ∧ (fixed8 r).data = (pre ++ [d]) ++ '.' :: post := by
  rw [fixed8]
  exact append_dot_split _ _ _ (fixed8_ip_ne_nil r)
    (fun c hc => fixed8_digits_digits r c (List.take_subset _ _ hc))

/-- Stripping trailing zeros and a trailing point from a `fixed8` rendering
keeps at least the final integer-part digit. -/
theorem fixed8_strip_ne_empty (r : ℚ) :
    rstrip '.' (rstrip '0' (fixed8 r)) ≠ "" := by
  obtain ⟨pre, d, post, hd, hsplit⟩ := fixed8_split r
  obtain ⟨post2, h1⟩ := rstrip_data_split '0' '.' (fixed8 r) (pre ++ [d]) post
    (by decide) hsplit
  have h2 : (rstrip '0' (fixed8 r)).data = pre ++ d :: ('.' :: post2) := by
    rw [h1]
    simp
  have hdd : (d == '.') = false := by
    rw [beq_eq_false_iff_ne]
    intro hcontr
    rw [hcontr] at hd
    exact absurd hd (by decide)
  exact rstrip_ne_empty_of_split '.' d _ pre ('.' :: post2) hdd h2

theorem formatResult_ne_empty (r : ℚ) : formatResult r ≠ "" := by
  rw [formatResult]
  split
  · exact sci2_ne_empty r
  · split
    · exact intStr_ne_empty _
    · exact fixed8_strip_ne_empty r

theorem calculate_ne_empty (a o b : String) : calculate a o b ≠ "" := by
  rw [calculate]
  repeat' first
    | (exact formatResult_ne_empty _)
    | (exact (by decide : ("Error" : String) ≠ ""))
    | split

/-- Python `str` of a float value is never the empty string. -/
theorem pyStr_ne_empty (q : ℚ) : pyStr q ≠ "" := by
  rw [pyStr]
  split
  · decide
  · split
    · decide
    · dsimp only
      apply str_append_ne_empty_right
      split
      · split
        · exact str_append_ne_empty_right _ _ (by decide)
        · split
          · exact str_append_ne_empty_left _ _
              (str_append_ne_empty_right _ "." (by decide))
          · exact str_append_ne_empty_left _ _
              (str_append_ne_empty_left "0." _ (by decide))
      · apply str_append_ne_empty_right
        split
        · exact str_append_ne_empty_left "+" _ (by decide)
        · exact str_append_ne_empty_left "-" _ (by decide)

/-- Every button except `±` preserves non-emptiness of the display. -/
theorem apply_button_display_ne_empty (s : CalcState) (b : String)
    (hb : b ≠ "±") (hd : s.display ≠ "") : (apply_button s b).display ≠ "" := by
  rw [apply_button]
  by_cases h1 : isdigit b = true
  · rw [if_pos h1]
    have hbne : b ≠ "" := by
      intro h
      rw [h] at h1
      exact absurd h1 (by decide)
    by_cases h2 : s.just_calculated = true
    · rw [if_pos h2]
      exact hbne
    · rw [if_neg h2]
      dsimp only
      by_cases h3 : s.display = "0" ∨ contains_error s.display = true
      · rw [if_pos h3]
        exact hbne
      · rw [if_neg h3]
        by_cases h4 : s.display.length < 12
        · rw [if_pos h4]
          exact str_append_ne_empty_right _ _ hbne
        · rw [if_neg h4]
          exact hd
  · rw [if_neg h1]
    by_cases h2 : b = "."
    · rw [if_pos h2]
      by_cases h3 : ¬str_contains s.display "." = true ∧ ¬s.just_calculated = true
      · rw [if_pos h3]
        dsimp only
        by_cases h4 : s.display = "0"
        · rw [if_pos h4]
          exact (show ("0." : String) ≠ "" by decide)
        · rw [if_neg h4]
          exact str_append_ne_empty_right _ _ (by decide)
      · rw [if_neg h3]
        exact hd
    · rw [if_neg h2]
      by_cases h3 : b = "+" ∨ b = "-" ∨ b = "×" ∨ b = "÷"
      · rw [if_pos h3]
        by_cases h4 : s.current_number ≠ ""
        · rw [if_pos h4]
          by_cases h5 : s.operation ≠ "" ∧ s.previous_number ≠ ""
          · rw [if_pos h5]
            dsimp only
            by_cases h6 : ¬contains_error
                (calculate s.previous_number s.operation s.current_number) = true
            · rw [if_pos h6]
              exact calculate_ne_empty _ _ _
            · rw [if_neg h6]
              exact calculate_ne_empty _ _ _
          · rw [if_neg h5]
            exact hd
        · rw [if_neg h4]
          exact hd
      · rw [if_neg h3]
        by_cases h4 : b = "="
        · rw [if_pos h4]
          by_cases h5 : s.current_number ≠ "" ∧ s.operation ≠ "" ∧
              s.previous_number ≠ ""
          · rw [if_pos h5]
            dsimp only
            exact calculate_ne_empty _ _ _
          · rw [if_neg h5]
            exact hd
        · rw [if_neg h4]
          by_cases h5 : b = "C"
          · rw [if_pos h5]
            exact (show ("0" : String) ≠ "" by decide)
          · rw [if_neg h5]
            by_cases h6 : b = "del"
            · rw [if_pos h6]
              by_cases h7 : ¬s.just_calculated = true ∧ 1 < s.display.length
              · rw [if_pos h7]
                dsimp only
                intro hcontr
                rw [str_eq_empty_iff] at hcontr
                have hlen2 := congrArg List.length hcontr
                rw [List.length_dropLast, List.length_nil] at hlen2
                have h8 : 1 < s.display.data.length := h7.2
                omega
              · rw [if_neg h7]
                by_cases h8 : s.display.length = 1
                · rw [if_pos h8]
                  exact (show ("0" : String) ≠ "" by decide)
                · rw [if_neg h8]
                  exact hd
            · rw [if_neg h6]
              rw [if_neg hb]
              by_cases h7 : b = "%"
              · rw [if_pos h7]
                by_cases h8 : s.current_number ≠ ""
                · rw [if_pos h8]
                  cases hpf : pyFloat s.current_number with
                  | none =>
                    exact (show ("Error" : String) ≠ "" by decide)
                  | some v =>
                    exact pyStr_ne_empty _
                · rw [if_neg h8]
                  exact hd
              · rw [if_neg h7]
                exact hd

/-- C1 (amended): along every activation sequence from the initial state
that contains no `±`, the display is non-empty.  The full claimed invariant
fails: `±` can strip the sign digit by digit, producing the bare `-` and
then the empty display. -/
theorem C1_display_nonempty (bs : List String) (h : "±" ∉ bs) :
    (apply_seq initState bs).display ≠ "" := by
  have main : ∀ (bs2 : List String) (s : CalcState), "±" ∉ bs2 → s.display ≠ "" →
      (apply_seq s bs2).display ≠ "" := by
    intro bs2
    induction bs2 with
    | nil =>
      intro s _ hdd
      exact hdd
    | cons b rest ih =>
      intro s hmem hdd
      rw [apply_seq_cons]
      refine ih _ (fun hr => hmem (List.mem_cons_of_mem _ hr)) ?_
      refine apply_button_display_ne_empty s b ?_ hdd
      intro hbe
      exact hmem (by rw [hbe]; exact List.mem_cons_self _ _)
  exact main bs initState h (by decide)

/-- Witness for C1 on a `±`-free sequence. -/
theorem C1_witness : (apply_seq initState ["5", "+", "3", "="]).display ≠ "" :=
  C1_display_nonempty ["5", "+", "3", "="] (by decide)

end
